import Mathlib

/-!
Verification of the crank-angle kinematics and four-stroke phase model of the
Engine-simulation-opengl repository.

The numeric code operates on IEEE `float`; here it is embedded over the real
numbers, with C's `fmod` (truncation toward zero) modelled explicitly.

Sources embedded:
* `src/src/engine_sim.cpp` — `get_stroke_name`, `get_piston_position`, and the
  per-tick crank update in `main` (`advance` below);
* `src/unnamed/part_000` — `getPhaseKindForCylinder` (fmod with negative
  results wrapped forward, i.e. `wrap720`);
* `src/unnamed/part_001` and `src/unnamed/part_002` — `getPistonHeight`,
  `getValveStates`, and the `idle` crank update (same arithmetic as `advance`:
  `rpm * 360 / 60000` degrees per millisecond equals `rpm * 6` per second).
-/

/-- Truncation toward zero, as C's `fmod` uses: the integer part of `q`,
rounding toward zero (floor for non-negative `q`, ceiling for negative `q`). -/
noncomputable def cTrunc (q : ℝ) : ℤ := if 0 ≤ q then ⌊q⌋ else ⌈q⌉

/-- C's `fmod(x, y)` on finite values: `x - y * trunc(x / y)`, so the result
has the sign of `x` and magnitude below `|y|`. -/
noncomputable def cFmod (x y : ℝ) : ℝ := x - y * cTrunc (x / y)

/-- The wrapping used by `getPhaseKindForCylinder` in `src/unnamed/part_000`
(lines 192–193): `a = fmodf(x, 720); if (a < 0) a += 720;`.  This is the
spec's `wrap720`. -/
noncomputable def wrap720 (x : ℝ) : ℝ :=
  if cFmod x 720 < 0 then cFmod x 720 + 720 else cFmod x 720

/-- `getPhaseKindForCylinder` from `src/unnamed/part_000` lines 191–198:
wrap the effective angle into `[0, 720)` and classify it into stroke kinds
0 = intake, 1 = compression, 2 = power, 3 = exhaust by 180-degree bands. -/
noncomputable def getPhaseKindForCylinder (angleDeg phaseOffsetDeg : ℝ) : ℤ :=
  let a := wrap720 (angleDeg + phaseOffsetDeg)
  if a < 180 then 0
  else if a < 360 then 1
  else if a < 540 then 2
  else 3

/-- The per-cylinder phase offset table hard-coded in `get_stroke_name`
(`src/src/engine_sim.cpp` lines 173–176): offset 0 unless the index is 1, 2
or 3, which get 540, 180 and 360 respectively (firing order 1-3-4-2). -/
def phase_offset (cylinder_index : ℤ) : ℝ :=
  if cylinder_index = 1 then 540
  else if cylinder_index = 2 then 180
  else if cylinder_index = 3 then 360
  else 0

/-- `get_stroke_name` from `src/src/engine_sim.cpp` lines 165–190, with the
global `crank_angle_degrees` made an explicit argument: take
`fmod(crank + offset, 720)` (no negative fix-up) and test the four
half-open 180-degree bands, falling through to `"EXHAUST"`. -/
noncomputable def get_stroke_name (crank_angle_degrees : ℝ) (cylinder_index : ℤ) : String :=
  let effective_angle := cFmod (crank_angle_degrees + phase_offset cylinder_index) 720
  if 0 ≤ effective_angle ∧ effective_angle < 180 then "INTAKE"
  else if 180 ≤ effective_angle ∧ effective_angle < 360 then "COMPRESSION"
  else if 360 ≤ effective_angle ∧ effective_angle < 540 then "POWER/COMBUSTION"
  else "EXHAUST"

/-- The stroke name that `get_stroke_name` prints for each kind returned by
`getPhaseKindForCylinder`; used to compare the two classifiers. -/
def strokeNameOfKind (k : ℤ) : String :=
  if k = 0 then "INTAKE"
  else if k = 1 then "COMPRESSION"
  else if k = 2 then "POWER/COMBUSTION"
  else "EXHAUST"

/-- The per-tick crank update from `src/src/engine_sim.cpp` lines 88–99 (and,
with identical arithmetic, the `idle` update of `src/unnamed/part_002` lines
450–462): `degrees_per_second = rpm * 6`, add `degrees_per_second * dt`, and
subtract 720 once when the result reaches 720. -/
noncomputable def advance (crank_angle_degrees rpm dtSeconds : ℝ) : ℝ :=
  let degrees_per_second := rpm * 6
  let c := crank_angle_degrees + degrees_per_second * dtSeconds
  if 720 ≤ c then c - 720 else c

/-- The square-root argument of `get_piston_position`
(`src/src/engine_sim.cpp` line 151): `1 - (R/L)^2 * sin^2 θ`. -/
noncomputable def pistonRadicand (angle_rad R L : ℝ) : ℝ :=
  1 - (R / L) ^ 2 * Real.sin angle_rad ^ 2

/-- `get_piston_position` from `src/src/engine_sim.cpp` lines 140–156, with
its fixed geometry `CRANK_RADIUS = 0.5`, `CONROD_LENGTH = 2`:
`-R cos θ + L sqrt(1 - (R/L)^2 sin^2 θ)` for `θ` in radians. -/
noncomputable def get_piston_position (angle_rad : ℝ) : ℝ :=
  -0.5 * Real.cos angle_rad + 2 * Real.sqrt (pistonRadicand angle_rad 0.5 2)

/-- The spec's `pistonDisplacement(angleDeg, R, L)`: the exact rod-crank
formula of `get_piston_position` with the geometry as parameters, composed
with the degree-to-radian conversion that `draw_piston_assembly`
(`src/src/engine_sim.cpp` line 202) applies before calling it. -/
noncomputable def pistonDisplacement (angleDeg R L : ℝ) : ℝ :=
  -R * Real.cos (angleDeg * Real.pi / 180) +
    L * Real.sqrt (pistonRadicand (angleDeg * Real.pi / 180) R L)

/-- `getPistonHeight` from `src/unnamed/part_002` lines 194–210 (identical in
`src/unnamed/part_001` lines 248–264): raw rod-crank height
`R cos θ + sqrt(L^2 - R^2 sin^2 θ)` with `R = 0.75`, `L = 2.4`, normalized
from `[L-R, L+R]` to `[0,1]` and mapped to world coordinates `1.5 + t*3.2`. -/
noncomputable def getPistonHeight (angleDeg : ℝ) : ℝ :=
  let R : ℝ := 0.75
  let L : ℝ := 2.4
  let th := angleDeg * Real.pi / 180
  let s := Real.sin th
  let c := Real.cos th
  let y := R * c + Real.sqrt (L * L - R * R * s * s)
  let minY := L - R
  let maxY := L + R
  let t := (y - minY) / (maxY - minY)
  1.5 + t * 3.2

/-- `getValveStates` from `src/unnamed/part_002` lines 212–221 (identical in
`src/unnamed/part_001` lines 266–273): intake lift 1 when
`fmod(angle, 720) < 180`, exhaust lift 1 when `fmod(angle, 720) >= 540`,
otherwise 0. -/
noncomputable def getValveStates (angleDeg : ℝ) : ℝ × ℝ :=
  let a := cFmod angleDeg 720
  let intakeLift : ℝ := if a < 180 then 1 else 0
  let exhaustLift : ℝ := if 540 ≤ a then 1 else 0
  (intakeLift, exhaustLift)

/-- `wrap720` agrees with the mathematical residue: `720 * fract (x / 720)`. -/
theorem wrap720_eq_fract (x : ℝ) : wrap720 x = 720 * Int.fract (x / 720) := by
  have hfr : (720 : ℝ) * (x / 720) = x := by field_simp
  unfold wrap720 cFmod cTrunc
  rcases le_or_lt 0 (x / 720) with h | h
  · rw [if_pos h]
    have key : x - 720 * (⌊x / 720⌋ : ℝ) = 720 * Int.fract (x / 720) := by
      rw [← Int.self_sub_floor, mul_sub, hfr]
    rw [key, if_neg (not_lt.2 (mul_nonneg (by norm_num) (Int.fract_nonneg _)))]
  · rw [if_neg (not_le.2 h)]
    rcases Int.fract_eq_zero_or_add_one_sub_ceil (x / 720) with hf | hf
    · have hint : (⌊x / 720⌋ : ℝ) = x / 720 := by
        have := Int.self_sub_floor (x / 720)
        rw [hf] at this
        linarith
      have hceil : ⌈x / 720⌉ = ⌊x / 720⌋ := by
        conv_lhs => rw [← hint]
        exact Int.ceil_intCast _
      rw [hceil]
      have key : x - 720 * (⌊x / 720⌋ : ℝ) = 0 := by
        rw [hint, hfr]
        ring
      rw [key, hf, if_neg (by norm_num)]
      ring
    · have key : x - 720 * (⌈x / 720⌉ : ℝ) = 720 * Int.fract (x / 720) - 720 := by
        rw [hf]
        rw [mul_sub, mul_add, hfr]
        ring
      rw [key, if_pos (by linarith [Int.fract_lt_one (x / 720)])]
      ring

/-- `wrap720` never returns a negative value. -/
theorem wrap720_nonneg (x : ℝ) : 0 ≤ wrap720 x := by
  rw [wrap720_eq_fract]
  exact mul_nonneg (by norm_num) (Int.fract_nonneg _)

/-- `wrap720` always returns a value below 720. -/
theorem wrap720_lt_720 (x : ℝ) : wrap720 x < 720 := by
  rw [wrap720_eq_fract]
  have := Int.fract_lt_one (x / 720)
  linarith

/-- `wrap720` fixes every point of `[0, 720)`. -/
theorem wrap720_eq_self (x : ℝ) (h0 : 0 ≤ x) (h1 : x < 720) : wrap720 x = x := by
  rw [wrap720_eq_fract, Int.fract_eq_self.2 ⟨by positivity, by linarith [div_lt_one (show (0:ℝ) < 720 by norm_num) |>.2 h1]⟩]
  field_simp

/-- Subtracting a full 720-degree cycle does not change the wrapped angle. -/
theorem wrap720_sub_720 (x : ℝ) : wrap720 (x - 720) = wrap720 x := by
  rw [wrap720_eq_fract, wrap720_eq_fract]
  have harg : (x - 720) / 720 = x / 720 - ((1 : ℤ) : ℝ) := by
    push_cast
    field_simp
  rw [harg, Int.fract_sub_int]

/-- Adding a full 720-degree cycle does not change the wrapped angle. -/
theorem wrap720_add_720 (x : ℝ) : wrap720 (x + 720) = wrap720 x := by
  rw [wrap720_eq_fract, wrap720_eq_fract]
  have harg : (x + 720) / 720 = x / 720 + ((1 : ℤ) : ℝ) := by
    push_cast
    field_simp
  rw [harg, Int.fract_add_int]

/-- For non-negative input the C `fmod` by 720 is already in `[0, 720)`, so
`wrap720` coincides with it. -/
theorem cFmod_eq_wrap720_of_nonneg (x : ℝ) (h : 0 ≤ x) :
    cFmod x 720 = wrap720 x ∧ 0 ≤ cFmod x 720 ∧ cFmod x 720 < 720 := by
  have hq : 0 ≤ x / 720 := by positivity
  have hkey : cFmod x 720 = 720 * Int.fract (x / 720) := by
    unfold cFmod cTrunc
    rw [if_pos hq, ← Int.self_sub_floor, mul_sub]
    field_simp
  have h0 : 0 ≤ cFmod x 720 := by
    rw [hkey]
    exact mul_nonneg (by norm_num) (Int.fract_nonneg _)
  refine ⟨?_, h0, ?_⟩
  · unfold wrap720
    rw [if_neg (not_lt.2 h0)]
  · rw [hkey]
    have := Int.fract_lt_one (x / 720)
    linarith

/-- C8: `wrap720` is idempotent, its result always lies in `[0, 720)`, and a
negative `fmod` result is wrapped forward by adding 720 while a non-negative
one is returned unchanged. -/
theorem claim8_wrap720_idempotent_range (x : ℝ) :
    wrap720 (wrap720 x) = wrap720 x ∧
    0 ≤ wrap720 x ∧ wrap720 x < 720 ∧
    ((0 ≤ cFmod x 720 ∧ wrap720 x = cFmod x 720) ∨
      (cFmod x 720 < 0 ∧ wrap720 x = cFmod x 720 + 720)) := by
  refine ⟨wrap720_eq_self _ (wrap720_nonneg x) (wrap720_lt_720 x),
    wrap720_nonneg x, wrap720_lt_720 x, ?_⟩
  unfold wrap720
  rcases lt_or_le (cFmod x 720) 0 with h | h
  · exact Or.inr ⟨h, by rw [if_pos h]⟩
  · exact Or.inl ⟨h, by rw [if_neg (not_lt.2 h)]⟩

/-- The classifier answers 0 (intake) exactly on the band `[0, 180)` of the
wrapped angle. -/
theorem phaseKind_eq_zero_iff (a off : ℝ) :
    getPhaseKindForCylinder a off = 0 ↔ wrap720 (a + off) < 180 := by
  simp only [getPhaseKindForCylinder]
  split_ifs with h1 h2 h3 <;> simpa using h1

/-- The classifier answers 1 (compression) exactly on the band `[180, 360)`
of the wrapped angle. -/
theorem phaseKind_eq_one_iff (a off : ℝ) :
    getPhaseKindForCylinder a off = 1 ↔
      180 ≤ wrap720 (a + off) ∧ wrap720 (a + off) < 360 := by
  simp only [getPhaseKindForCylinder]
  split_ifs with h1 h2 h3
  · apply iff_of_false (by norm_num)
    rintro ⟨hw, -⟩
    linarith
  · exact iff_of_true rfl ⟨not_lt.1 h1, h2⟩
  · apply iff_of_false (by norm_num)
    rintro ⟨-, hw⟩
    exact h2 hw
  · apply iff_of_false (by norm_num)
    rintro ⟨-, hw⟩
    exact h2 hw

/-- The classifier answers 2 (power) exactly on the band `[360, 540)` of the
wrapped angle. -/
theorem phaseKind_eq_two_iff (a off : ℝ) :
    getPhaseKindForCylinder a off = 2 ↔
      360 ≤ wrap720 (a + off) ∧ wrap720 (a + off) < 540 := by
  simp only [getPhaseKindForCylinder]
  split_ifs with h1 h2 h3
  · apply iff_of_false (by norm_num)
    rintro ⟨hw, -⟩
    linarith
  · apply iff_of_false (by norm_num)
    rintro ⟨hw, -⟩
    linarith
  · exact iff_of_true rfl ⟨not_lt.1 h2, h3⟩
  · apply iff_of_false (by norm_num)
    rintro ⟨-, hw⟩
    exact h3 hw

/-- The classifier answers 3 (exhaust) exactly on the band `[540, 720)` of
the wrapped angle. -/
theorem phaseKind_eq_three_iff (a off : ℝ) :
    getPhaseKindForCylinder a off = 3 ↔ 540 ≤ wrap720 (a + off) := by
  simp only [getPhaseKindForCylinder]
  split_ifs with h1 h2 h3
  · apply iff_of_false (by norm_num)
    intro hw
    linarith
  · apply iff_of_false (by norm_num)
    intro hw
    linarith [not_lt.1 h1]
  · apply iff_of_false (by norm_num)
    intro hw
    exact absurd h3 (not_lt.2 hw)
  · exact iff_of_true rfl (not_lt.1 h3)

/-- On non-negative effective angles — where C's `fmod` already lands in
`[0, 720)` — `get_stroke_name` prints exactly the stroke of the kind
computed by `getPhaseKindForCylinder`. -/
theorem stroke_name_agrees (crank : ℝ) (idx : ℤ)
    (h : 0 ≤ crank + phase_offset idx) :
    get_stroke_name crank idx =
      strokeNameOfKind (getPhaseKindForCylinder crank (phase_offset idx)) := by
  obtain ⟨hmod, h0, h720⟩ := cFmod_eq_wrap720_of_nonneg (crank + phase_offset idx) h
  unfold get_stroke_name getPhaseKindForCylinder
  rw [← hmod]
  set e := cFmod (crank + phase_offset idx) 720 with he
  rcases lt_or_le e 180 with hA | hA
  · rw [if_pos ⟨h0, hA⟩, if_pos hA]
    rfl
  · rcases lt_or_le e 360 with hB | hB
    · rw [if_neg (by rintro ⟨-, hx⟩; linarith), if_pos ⟨hA, hB⟩,
        if_neg (not_lt.2 hA), if_pos hB]
      rfl
    · rcases lt_or_le e 540 with hC | hC
      · rw [if_neg (by rintro ⟨-, hx⟩; linarith),
          if_neg (by rintro ⟨-, hx⟩; linarith), if_pos ⟨hB, hC⟩,
          if_neg (not_lt.2 hA), if_neg (not_lt.2 hB), if_pos hC]
        rfl
      · rw [if_neg (by rintro ⟨-, hx⟩; linarith),
          if_neg (by rintro ⟨-, hx⟩; linarith),
          if_neg (by rintro ⟨-, hx⟩; linarith),
          if_neg (not_lt.2 hA), if_neg (not_lt.2 hB), if_neg (not_lt.2 hC)]
        rfl

/-- C1 (amended): after wrapping, `getPhaseKindForCylinder` classifies every
real effective angle totally into the four half-open 180-degree bands that
partition `[0, 720)`, the boundary 180 falls on the compression side, and
`get_stroke_name` agrees with this classification whenever its effective
angle (crank plus table offset) is non-negative.  (As stated the claim fails
for `get_stroke_name` on negative effective angles, where C's `fmod` is
negative and the code falls through to `"EXHAUST"`.) -/
theorem claim1_phase_classifier (a off crank : ℝ) (idx : ℤ)
    (h : 0 ≤ crank + phase_offset idx) :
    (0 ≤ wrap720 (a + off) ∧ wrap720 (a + off) < 720) ∧
    (getPhaseKindForCylinder a off = 0 ↔ wrap720 (a + off) < 180) ∧
    (getPhaseKindForCylinder a off = 1 ↔
      180 ≤ wrap720 (a + off) ∧ wrap720 (a + off) < 360) ∧
    (getPhaseKindForCylinder a off = 2 ↔
      360 ≤ wrap720 (a + off) ∧ wrap720 (a + off) < 540) ∧
    (getPhaseKindForCylinder a off = 3 ↔ 540 ≤ wrap720 (a + off)) ∧
    getPhaseKindForCylinder 180 0 = 1 ∧
    get_stroke_name crank idx =
      strokeNameOfKind (getPhaseKindForCylinder crank (phase_offset idx)) := by
  refine ⟨⟨wrap720_nonneg _, wrap720_lt_720 _⟩,
    phaseKind_eq_zero_iff a off, phaseKind_eq_one_iff a off,
    phaseKind_eq_two_iff a off, phaseKind_eq_three_iff a off, ?_,
    stroke_name_agrees crank idx h⟩
  rw [phaseKind_eq_one_iff]
  rw [show (180 : ℝ) + 0 = 180 by norm_num,
    wrap720_eq_self 180 (by norm_num) (by norm_num)]
  norm_num

/-- C1 counterexample: at effective angle `-700` the `get_stroke_name`
classifier returns `"EXHAUST"`, although `wrap720(-700) = 20` lies in the
intake band `[0, 180)` — so the classifier does not return the phase of the
wrapped angle for every real input. -/
theorem claim1_counterexample :
    get_stroke_name (-700) 0 = "EXHAUST" ∧
    wrap720 (-700) = 20 ∧ (0 : ℝ) ≤ 20 ∧ (20 : ℝ) < 180 := by
  have h1 : cFmod (-700) 720 = -700 := by
    unfold cFmod cTrunc
    norm_num
  refine ⟨?_, ?_, by norm_num, by norm_num⟩
  · have harg : (-700 : ℝ) + phase_offset 0 = -700 := by
      simp [phase_offset]
    unfold get_stroke_name
    rw [harg, h1]
    norm_num
  · unfold wrap720
    rw [h1]
    norm_num

/-- C1 witness: the amended theorem applied at crank angle 0, cylinder 0. -/
theorem claim1_witness :
    (0 : ℝ) ≤ 0 + phase_offset 0 ∧
    get_stroke_name 0 0 =
      strokeNameOfKind (getPhaseKindForCylinder 0 (phase_offset 0)) := by
  have h : (0 : ℝ) ≤ 0 + phase_offset 0 := by
    unfold phase_offset
    norm_num
  exact ⟨h, (claim1_phase_classifier 0 0 0 0 h).2.2.2.2.2.2⟩

/-- `advance` either leaves the incremented angle alone or subtracts exactly
one cycle from it. -/
theorem advance_eq_or (a r d : ℝ) :
    advance a r d = a + r * 6 * d ∨ advance a r d = a + r * 6 * d - 720 := by
  simp only [advance]
  split_ifs with h
  · exact Or.inr rfl
  · exact Or.inl rfl

/-- After wrapping, `advance` always realizes the full increment
`rpm * 6 * dt` modulo 720. -/
theorem advance_wrap720 (a r d : ℝ) :
    wrap720 (advance a r d) = wrap720 (a + r * 6 * d) := by
  rcases advance_eq_or a r d with h | h
  · rw [h]
  · rw [h, wrap720_sub_720]

/-- C2 (amended): starting from an angle in `[0, 720)` with `rpm ≥ 0`,
`dt ≥ 0`, the per-tick update keeps the crank angle in `[0, 720)` provided
the tick's increment `rpm * 6 * dt` is below one full 720-degree cycle.
(The code subtracts 720 once when the sum reaches 720 — it is not a true
modulo, so a single tick with increment at least `1440 - angle` leaves the
stored angle at or above 720.) -/
theorem claim2_advance_range (a r d : ℝ) (h0 : 0 ≤ a) (h1 : a < 720)
    (hr : 0 ≤ r) (hd : 0 ≤ d) (hinc : r * 6 * d < 720) :
    0 ≤ advance a r d ∧ advance a r d < 720 := by
  have hinc0 : 0 ≤ r * 6 * d := by positivity
  simp only [advance]
  split_ifs with h
  · constructor <;> linarith
  · constructor <;> linarith [not_le.1 h]

/-- C2 counterexample: from angle 0 with `rpm = 1200` and `dt = 0.25 s` the
increment is 1800 degrees; the update stores `1800 - 720 = 1080`, which
violates the claimed invariant `crankAngleDeg < 720` (a true modulo would
give 360). -/
theorem claim2_counterexample :
    advance 0 1200 (1 / 4) = 1080 ∧
    ¬ advance 0 1200 (1 / 4) < 720 ∧
    wrap720 (0 + 1200 * 6 * (1 / 4)) = 360 := by
  have hadv : advance 0 1200 (1 / 4) = 1080 := by
    simp only [advance]
    norm_num
  refine ⟨hadv, by rw [hadv]; norm_num, ?_⟩
  have h1 : (0 : ℝ) + 1200 * 6 * (1 / 4) = 360 + 720 + 720 := by norm_num
  rw [h1, wrap720_add_720, wrap720_add_720,
    wrap720_eq_self 360 (by norm_num) (by norm_num)]

/-- C2 witness: the amended theorem applied at angle 0, `rpm = 100`,
`dt = 1 s`. -/
theorem claim2_witness :
    ((0 : ℝ) ≤ 0 ∧ (0 : ℝ) < 720 ∧ (0 : ℝ) ≤ 100 ∧ (0 : ℝ) ≤ 1 ∧
      (100 : ℝ) * 6 * 1 < 720) ∧
    0 ≤ advance 0 100 1 ∧ advance 0 100 1 < 720 :=
  ⟨⟨by norm_num, by norm_num, by norm_num, by norm_num, by norm_num⟩,
    claim2_advance_range 0 100 1 (by norm_num) (by norm_num) (by norm_num)
      (by norm_num) (by norm_num)⟩

/-- C3 (amended): `advance` adds `rpm * 6 * dt` and subtracts 720 once when
the sum reaches 720, which equals `wrap720(old + rpm * 6 * dt)` whenever the
start lies in `[0, 720)` and the increment is below 720; with `rpm = 600`
and `dt = 0.1 s` the angle advances by exactly 360 degrees, so from angle 0
the result is 360 — placing the phase-offset-0 cylinder in POWER (kind 2),
not back in INTAKE as claimed. -/
theorem claim3_advance_step (a r d : ℝ) (h0 : 0 ≤ a) (h1 : a < 720)
    (h2 : 0 ≤ r * 6 * d) (h3 : r * 6 * d < 720) :
    advance a r d = wrap720 (a + r * 6 * d) ∧
    advance 0 600 (1 / 10) = 360 ∧
    getPhaseKindForCylinder (advance 0 600 (1 / 10)) 0 = 2 := by
  have hadv : advance 0 600 (1 / 10) = 360 := by
    simp only [advance]
    norm_num
  refine ⟨?_, hadv, ?_⟩
  · simp only [advance]
    split_ifs with h
    · rw [show wrap720 (a + r * 6 * d) = wrap720 (a + r * 6 * d - 720) from
        (wrap720_sub_720 _).symm]
      rw [wrap720_eq_self _ (by linarith) (by linarith)]
    · rw [wrap720_eq_self _ (by linarith) (by linarith [not_le.1 h])]
  · rw [hadv, phaseKind_eq_two_iff,
      show (360 : ℝ) + 0 = 360 by norm_num,
      wrap720_eq_self 360 (by norm_num) (by norm_num)]
    norm_num

/-- C3 counterexample: with `rpm = 600`, `dt = 0.1 s` from angle 0 the
updated angle is 360, not the claimed 0, and the phase-offset-0 cylinder is
in POWER (`get_stroke_name` prints `"POWER/COMBUSTION"`), not INTAKE. -/
theorem claim3_counterexample :
    advance 0 600 (1 / 10) = 360 ∧
    advance 0 600 (1 / 10) ≠ 0 ∧
    get_stroke_name (advance 0 600 (1 / 10)) 0 = "POWER/COMBUSTION" := by
  have hadv : advance 0 600 (1 / 10) = 360 := by
    simp only [advance]
    norm_num
  have hmod : cFmod 360 720 = 360 := by
    unfold cFmod cTrunc
    norm_num
  refine ⟨hadv, by rw [hadv]; norm_num, ?_⟩
  have harg : (360 : ℝ) + phase_offset 0 = 360 := by
    simp [phase_offset]
  rw [hadv]
  unfold get_stroke_name
  rw [harg, hmod]
  norm_num

/-- C3 witness: the amended theorem applied at angle 0, `rpm = 600`,
`dt = 0.1 s`. -/
theorem claim3_witness :
    ((0 : ℝ) ≤ 0 ∧ (0 : ℝ) < 720 ∧ (0 : ℝ) ≤ 600 * 6 * (1 / 10) ∧
      (600 : ℝ) * 6 * (1 / 10) < 720) ∧
    advance 0 600 (1 / 10) = wrap720 (0 + 600 * 6 * (1 / 10)) :=
  ⟨⟨by norm_num, by norm_num, by norm_num, by norm_num⟩,
    (claim3_advance_step 0 600 (1 / 10) (by norm_num) (by norm_num)
      (by norm_num) (by norm_num)).1⟩

/-- C6 (amended): for constant rpm, composing two ticks agrees with one tick
over the summed time up to wrapping — `wrap720` of the two results is equal
— but the stored angles themselves can differ (the one-subtraction update
can store 720 where the two-step run stores 0). -/
theorem claim6_advance_additive_mod (a r d₁ d₂ : ℝ) (hr : 0 ≤ r)
    (hd₁ : 0 ≤ d₁) (hd₂ : 0 ≤ d₂) :
    wrap720 (advance (advance a r d₁) r d₂) =
      wrap720 (advance a r (d₁ + d₂)) := by
  rw [advance_wrap720, advance_wrap720]
  rcases advance_eq_or a r d₁ with h | h
  · rw [h]
    congr 1
    ring
  · rw [h, show a + r * 6 * d₁ - 720 + r * 6 * d₂ =
      a + r * 6 * (d₁ + d₂) - 720 by ring, wrap720_sub_720]

/-- C6 counterexample: from angle 0 with `rpm = 1200`, two ticks of 0.1 s
store angle 0, while a single tick of 0.2 s stores angle 720 — the two runs
do not yield the same stored crank angle. -/
theorem claim6_counterexample :
    advance (advance 0 1200 (1 / 10)) 1200 (1 / 10) = 0 ∧
    advance 0 1200 (1 / 10 + 1 / 10) = 720 ∧
    advance (advance 0 1200 (1 / 10)) 1200 (1 / 10) ≠
      advance 0 1200 (1 / 10 + 1 / 10) := by
  have h1 : advance 0 1200 (1 / 10) = 0 := by
    simp only [advance]
    norm_num
  have h2 : advance (advance 0 1200 (1 / 10)) 1200 (1 / 10) = 0 := by
    rw [h1]
    simp only [advance]
    norm_num
  have h3 : advance 0 1200 (1 / 10 + 1 / 10) = 720 := by
    simp only [advance]
    norm_num
  refine ⟨h2, h3, ?_⟩
  rw [h2, h3]
  norm_num

/-- C6 witness: the amended theorem applied at angle 0, `rpm = 1200`,
`dt₁ = dt₂ = 0.1 s`. -/
theorem claim6_witness :
    ((0 : ℝ) ≤ 1200 ∧ (0 : ℝ) ≤ 1 / 10 ∧ (0 : ℝ) ≤ 1 / 10) ∧
    wrap720 (advance (advance 0 1200 (1 / 10)) 1200 (1 / 10)) =
      wrap720 (advance 0 1200 (1 / 10 + 1 / 10)) :=
  ⟨⟨by norm_num, by norm_num, by norm_num⟩,
    claim6_advance_additive_mod 0 1200 (1 / 10) (1 / 10) (by norm_num)
      (by norm_num) (by norm_num)⟩

/-- C4: at crank angle 0 the four cylinders — whose table offsets are
0, 540, 180 and 360 for indices 0, 1, 2 and 3 — are in INTAKE, EXHAUST,
COMPRESSION and POWER respectively: exactly one cylinder occupies each of
the four phases (kinds 0, 3, 1 and 2). -/
theorem claim4_even_firing :
    get_stroke_name 0 0 = "INTAKE" ∧
    get_stroke_name 0 1 = "EXHAUST" ∧
    get_stroke_name 0 2 = "COMPRESSION" ∧
    get_stroke_name 0 3 = "POWER/COMBUSTION" ∧
    getPhaseKindForCylinder 0 0 = 0 ∧
    getPhaseKindForCylinder 0 540 = 3 ∧
    getPhaseKindForCylinder 0 180 = 1 ∧
    getPhaseKindForCylinder 0 360 = 2 := by
  have e0 : cFmod 0 720 = 0 := by unfold cFmod cTrunc; norm_num
  have e180 : cFmod 180 720 = 180 := by unfold cFmod cTrunc; norm_num
  have e360 : cFmod 360 720 = 360 := by unfold cFmod cTrunc; norm_num
  have e540 : cFmod 540 720 = 540 := by unfold cFmod cTrunc; norm_num
  refine ⟨?_, ?_, ?_, ?_, ?_, ?_, ?_, ?_⟩
  · unfold get_stroke_name
    rw [show (0 : ℝ) + phase_offset 0 = 0 by simp [phase_offset], e0]
    norm_num
  · unfold get_stroke_name
    rw [show (0 : ℝ) + phase_offset 1 = 540 by simp [phase_offset], e540]
    norm_num
  · unfold get_stroke_name
    rw [show (0 : ℝ) + phase_offset 2 = 180 by simp [phase_offset], e180]
    norm_num
  · unfold get_stroke_name
    rw [show (0 : ℝ) + phase_offset 3 = 360 by simp [phase_offset], e360]
    norm_num
  · rw [phaseKind_eq_zero_iff,
      show (0 : ℝ) + 0 = 0 by norm_num,
      wrap720_eq_self 0 (by norm_num) (by norm_num)]
    norm_num
  · rw [phaseKind_eq_three_iff,
      show (0 : ℝ) + 540 = 540 by norm_num,
      wrap720_eq_self 540 (by norm_num) (by norm_num)]
  · rw [phaseKind_eq_one_iff,
      show (0 : ℝ) + 180 = 180 by norm_num,
      wrap720_eq_self 180 (by norm_num) (by norm_num)]
    norm_num
  · rw [phaseKind_eq_two_iff,
      show (0 : ℝ) + 360 = 360 by norm_num,
      wrap720_eq_self 360 (by norm_num) (by norm_num)]
    norm_num

/-- Shifting the crank angle by one full revolution (360 degrees) leaves the
exact rod-crank displacement unchanged. -/
theorem pistonDisplacement_add_360 (θ R L : ℝ) :
    pistonDisplacement (θ + 360) R L = pistonDisplacement θ R L := by
  unfold pistonDisplacement pistonRadicand
  have harg : (θ + 360) * Real.pi / 180 = θ * Real.pi / 180 + 2 * Real.pi := by
    ring
  rw [harg, Real.cos_add_two_pi, Real.sin_add_two_pi]

/-- C5: for any geometry with `L > R > 0` the piston displacement is
360-degree periodic in the crank angle; in particular its values at 0, 360
and 720 degrees coincide.  The parameterized formula specializes to
`get_piston_position` at the source's geometry `R = 0.5`, `L = 2`. -/
theorem claim5_displacement_periodic (θ R L : ℝ) (hR : 0 < R) (hRL : R < L) :
    pistonDisplacement θ R L = pistonDisplacement (θ + 360) R L ∧
    pistonDisplacement 0 R L = pistonDisplacement 360 R L ∧
    pistonDisplacement 360 R L = pistonDisplacement 720 R L ∧
    get_piston_position (θ * Real.pi / 180) = pistonDisplacement θ 0.5 2 := by
  refine ⟨(pistonDisplacement_add_360 θ R L).symm, ?_, ?_, ?_⟩
  · have h := pistonDisplacement_add_360 0 R L
    rw [zero_add] at h
    exact h.symm
  · have h := pistonDisplacement_add_360 360 R L
    rw [show (360 : ℝ) + 360 = 720 by norm_num] at h
    exact h.symm
  · unfold get_piston_position pistonDisplacement
    norm_num

/-- C5 witness: the theorem applied at angle 0 with the geometry
`R = 0.75`, `L = 2.4` of `getPistonHeight`. -/
theorem claim5_witness :
    ((0 : ℝ) < 0.75 ∧ (0.75 : ℝ) < 2.4) ∧
    pistonDisplacement 0 0.75 2.4 = pistonDisplacement (0 + 360) 0.75 2.4 :=
  ⟨⟨by norm_num, by norm_num⟩,
    (claim5_displacement_periodic 0 0.75 2.4 (by norm_num) (by norm_num)).1⟩

/-- C7: under `L > R > 0` the square-root argument of the displacement
formula is non-negative (indeed positive) for every crank angle, and the
real square root genuinely inverts squaring on it — the formula never takes
the root of a negative number. -/
theorem claim7_radicand_nonneg (θ R L : ℝ) (hR : 0 < R) (hRL : R < L) :
    0 ≤ pistonRadicand θ R L ∧
    Real.sqrt (pistonRadicand θ R L) ^ 2 = pistonRadicand θ R L := by
  have hL : 0 < L := lt_trans hR hRL
  have hs : Real.sin θ ^ 2 ≤ 1 := Real.sin_sq_le_one θ
  have hq0 : 0 ≤ R / L := div_nonneg hR.le hL.le
  have hq1 : R / L < 1 := (div_lt_one hL).2 hRL
  have key : 0 ≤ 1 - (R / L) ^ 2 * Real.sin θ ^ 2 := by
    nlinarith [sq_nonneg (Real.sin θ), mul_nonneg hq0 hq0]
  refine ⟨?_, Real.sq_sqrt ?_⟩ <;> simpa [pistonRadicand] using key

/-- C7 witness: the theorem applied at angle 0 with the source geometry
`R = 0.5`, `L = 2`. -/
theorem claim7_witness :
    ((0 : ℝ) < 0.5 ∧ (0.5 : ℝ) < 2) ∧
    0 ≤ pistonRadicand 0 0.5 2 ∧
    Real.sqrt (pistonRadicand 0 0.5 2) ^ 2 = pistonRadicand 0 0.5 2 :=
  ⟨⟨by norm_num, by norm_num⟩,
    claim7_radicand_nonneg 0 0.5 2 (by norm_num) (by norm_num)⟩

/-- C9: for every real input angle the rendered piston height stays within
its travel range `[1.5, 4.7]`: the raw rod-crank height lies in
`[L - R, L + R] = [1.65, 3.15]`, so the normalization parameter lies in
`[0, 1]` and `1.5 + t * 3.2` is bounded. -/
theorem claim9_piston_height_bounds (θ : ℝ) :
    1.5 ≤ getPistonHeight θ ∧ getPistonHeight θ ≤ 4.7 := by
  simp only [getPistonHeight]
  set th := θ * Real.pi / 180 with hth
  set s := Real.sin th with hs
  set c := Real.cos th with hc
  have hsc : s ^ 2 + c ^ 2 = 1 := Real.sin_sq_add_cos_sq th
  have hc1 : -1 ≤ c := Real.neg_one_le_cos th
  have hc2 : c ≤ 1 := Real.cos_le_one th
  have hup : Real.sqrt (2.4 * 2.4 - 0.75 * 0.75 * s * s) ≤ 2.4 := by
    have hmono : Real.sqrt (2.4 * 2.4 - 0.75 * 0.75 * s * s) ≤
        Real.sqrt (2.4 * 2.4) :=
      Real.sqrt_le_sqrt (by nlinarith [sq_nonneg s])
    have hval : Real.sqrt (2.4 * 2.4) = 2.4 := Real.sqrt_mul_self (by norm_num)
    linarith
  have hlo : 2.4 - 0.75 - 0.75 * c ≤
      Real.sqrt (2.4 * 2.4 - 0.75 * 0.75 * s * s) := by
    apply Real.le_sqrt_of_sq_le
    nlinarith [hsc, hc1]
  set q := Real.sqrt (2.4 * 2.4 - 0.75 * 0.75 * s * s) with hq
  have hq0 : 0 ≤ q := Real.sqrt_nonneg _
  have ht0 : 0 ≤ (0.75 * c + q - (2.4 - 0.75)) / (2.4 + 0.75 - (2.4 - 0.75)) := by
    apply div_nonneg (by linarith) (by norm_num)
  have ht1 : (0.75 * c + q - (2.4 - 0.75)) / (2.4 + 0.75 - (2.4 - 0.75)) ≤ 1 := by
    rw [div_le_one (by norm_num)]
    linarith
  constructor
  · nlinarith [ht0]
  · nlinarith [ht1]

/-- C10: for non-negative input angles both valve lifts are 0 or 1, the
intake valve is open exactly when `fmod(angle, 720) < 180`, the exhaust
valve exactly when `fmod(angle, 720) ≥ 540`, and the two are never open
simultaneously. -/
theorem claim10_valve_states (x : ℝ) (hx : 0 ≤ x) :
    ((getValveStates x).1 = 0 ∨ (getValveStates x).1 = 1) ∧
    ((getValveStates x).2 = 0 ∨ (getValveStates x).2 = 1) ∧
    ((getValveStates x).1 = 1 ↔ cFmod x 720 < 180) ∧
    ((getValveStates x).2 = 1 ↔ 540 ≤ cFmod x 720) ∧
    ¬((getValveStates x).1 = 1 ∧ (getValveStates x).2 = 1) := by
  simp only [getValveStates, Prod.fst, Prod.snd]
  set a := cFmod x 720 with ha
  refine ⟨?_, ?_, ?_, ?_, ?_⟩
  · split_ifs <;> simp
  · split_ifs <;> simp
  · split_ifs with h
    · simpa using h
    · simpa using h
  · split_ifs with h
    · simpa using h
    · simpa using h
  · split_ifs with h1 h2 h3
    · rintro ⟨-, -⟩
      linarith
    · simp
    · simp
    · simp

/-- C10 witness: the theorem applied at angle 100, whose `fmod` by 720 is
100, so the intake valve is open and the exhaust valve closed. -/
theorem claim10_witness :
    (0 : ℝ) ≤ 100 ∧
    (((getValveStates 100).1 = 0 ∨ (getValveStates 100).1 = 1) ∧
      ((getValveStates 100).2 = 0 ∨ (getValveStates 100).2 = 1) ∧
      ((getValveStates 100).1 = 1 ↔ cFmod 100 720 < 180) ∧
      ((getValveStates 100).2 = 1 ↔ 540 ≤ cFmod 100 720) ∧
      ¬((getValveStates 100).1 = 1 ∧ (getValveStates 100).2 = 1)) :=
  ⟨by norm_num, claim10_valve_states 100 (by norm_num)⟩
